import Mathlib

/-!
Verification of the rusttygif replay loop (src/main.rs).

The whole program is one loop over the timing file. Each iteration, in the
order the source executes it (lines 89-128 of main.rs):

1. split the line on a single space, parse token 0 as f64 (delay) and
   token 1 as usize (size);
2. push "-delay" and the original delay token onto the convert argument list;
3. split the delay token on a dot, parse the integer part as u64, compute the
   nanosecond part from the f64 value, and sleep;
4. if the byte buffer from the previous iteration is nonempty: decode it as
   UTF-8, print and flush it, resolve WINDOWID, run xwd writing
   output/img-<frame>.xwd, and push that path onto the convert list;
5. resize the buffer to the declared size and read exactly that many bytes
   from the typescript stream;
6. increment the frame counter.

The embedding below is a direct translation: machine integers are Nat with
explicit bounds where the source can overflow, the f64 delay value is held as
an exact rational (every concrete delay token appearing in the claims, such as
0.5, 1.0 and 2.5, is a dyadic rational that f64 represents exactly, so the
rational model and the f64 computation agree on them), fallible operations
return Except, and each iteration additionally records the observable events
(sleep, write, flush, capture, read) in the order they happen, so that claims
about ordering and about what occurred before a fatal exit are statable.
-/

namespace Rusttygif

instance {ε α : Type} [DecidableEq ε] [DecidableEq α] :
    DecidableEq (Except ε α)
  | .ok a, .ok b =>
    if h : a = b then .isTrue (by rw [h]) else .isFalse (by simp [h])
  | .ok _, .error _ => .isFalse (by simp)
  | .error _, .ok _ => .isFalse (by simp)
  | .error e, .error f =>
    if h : e = f then .isTrue (by rw [h]) else .isFalse (by simp [h])

/-- Fatal exit sites of main.rs, in the vocabulary of the specification.
The three parse failures on a timing line plus the missing-second-token index
panic correspond to the MalformedTimingLine taxon; the read failure is
TruncatedScript; the UTF-8 failure is UndecodableOutput; the missing WINDOWID
is CaptureTargetUnresolved. -/
inductive RunError where
  | delayParse      -- f64::from_str(parts[0]) failed
  | sizeIndex       -- parts[1] does not exist: index panic
  | sizeParse       -- usize::from_str(parts[1]) failed
  | secsParse       -- u64::from_str(delay_parts[0]) failed
  | undecodable     -- str::from_utf8 on the buffered chunk failed
  | windowUnset     -- WINDOWID environment variable missing
  | truncatedScript -- read_exact found fewer bytes than requested
  | headerRead      -- reading the typescript header line failed
  deriving Repr, DecidableEq

/-- Split a character list on every occurrence of a separator character.
Mirrors Rust str::split with a one-character pattern: adjacent separators and
separators at either end yield empty fragments, and the empty input yields one
empty fragment. -/
def split1 (sep : Char) : List Char → List (List Char)
  | [] => [[]]
  | c :: cs =>
    if c = sep then [] :: split1 sep cs
    else
      match split1 sep cs with
      | [] => [[c]]
      | g :: gs => (c :: g) :: gs

/-- Numeric value of a digit string, most significant digit first. -/
def digitsVal (cs : List Char) : Nat :=
  cs.foldl (fun a c => a * 10 + (c.toNat - 48)) 0

def allDigits (cs : List Char) : Bool :=
  cs.all (fun c => c.isDigit)

/-- Model of usize::from_str and u64::from_str on a 64-bit target: an
optional leading plus sign (a minus sign is rejected for unsigned types),
then one or more ASCII digits; a value of 2 ^ 64 or more fails with an
overflow error, which or_exit treats like any other parse failure. -/
def parseNat (cs : List Char) : Option Nat :=
  let ds := match cs with
    | '+' :: rest => rest
    | _ => cs
  if ds ≠ [] ∧ allDigits ds = true ∧ digitsVal ds < 2 ^ 64 then
    some (digitsVal ds)
  else none

/-- Model of u64::from_str: same domain as parseNat. -/
def parseU64 (cs : List Char) : Option Nat :=
  parseNat cs

/-- Value accepted by f64::from_str, kept exactly: a finite decimal literal
denoting (-1 if neg) * (intVal + fracVal / 10 ^ fracLen) * 10 ^ exp, or an
infinity or nan keyword. The source stores the nearest f64 instead of the
exact value; the two agree wherever the f64 arithmetic is exact, which covers
every token this development evaluates concretely (0.5, 1.0, 2.5 and other
short dyadic literals). -/
inductive FloatVal where
  | finite (neg : Bool) (intVal fracVal fracLen : Nat) (exp : Int)
  | inf (neg : Bool)
  | nan
  deriving Repr, DecidableEq

/-- The rational a finite FloatVal denotes. Infinities and nan have no
rational value and are mapped to 0; toRat is only ever applied to finite
values. -/
def FloatVal.toRat : FloatVal → ℚ
  | .finite neg i f l e =>
    (if neg then -1 else 1) * ((i : ℚ) + (f : ℚ) / (10 : ℚ) ^ l) *
      (10 : ℚ) ^ e
  | .inf _ => 0
  | .nan => 0

/-- Strip one optional leading sign; true means negative. -/
def stripSign : List Char → Bool × List Char
  | '+' :: cs => (false, cs)
  | '-' :: cs => (true, cs)
  | cs => (false, cs)

/-- ASCII lowercasing, for the case-insensitive inf / infinity / nan
keywords. -/
def toLowerStr (cs : List Char) : List Char :=
  cs.map fun c =>
    if 'A' ≤ c ∧ c ≤ 'Z' then Char.ofNat (c.toNat + 32) else c

/-- Split a literal at its first exponent marker e or E: the mantissa and,
when a marker exists, the text after it. -/
def splitExp : List Char → List Char × Option (List Char)
  | [] => ([], none)
  | c :: cs =>
    if c = 'e' ∨ c = 'E' then ([], some cs)
    else
      match splitExp cs with
      | (m, x) => (c :: m, x)

/-- Mantissa of a decimal literal: Digit+, Digit+ . Digit* or
Digit* . Digit+ - digits, at most one dot, at least one digit overall.
Returns integer digits value, fraction digits value and fraction length. -/
def parseMantissa (cs : List Char) : Option (Nat × Nat × Nat) :=
  match split1 '.' cs with
  | [i] =>
    if i ≠ [] ∧ allDigits i = true then some (digitsVal i, 0, 0) else none
  | [i, f] =>
    if (i ≠ [] ∨ f ≠ []) ∧ allDigits i = true ∧ allDigits f = true then
      some (digitsVal i, digitsVal f, f.length)
    else none
  | _ => none

/-- Exponent part after the e or E marker: Sign? Digit+. -/
def parseExp (cs : List Char) : Option Int :=
  match cs with
  | '+' :: ds =>
    if ds ≠ [] ∧ allDigits ds = true then some (digitsVal ds : Int) else none
  | '-' :: ds =>
    if ds ≠ [] ∧ allDigits ds = true then some (-(digitsVal ds : Int))
    else none
  | ds =>
    if ds ≠ [] ∧ allDigits ds = true then some (digitsVal ds : Int) else none

/-- Model of f64::from_str, following the grammar the source documentation
gives: Sign? (inf | infinity | nan | Number) with the keywords
case-insensitive, Number = Mantissa Exp?, Exp = (e | E) Sign? Digit+.
Magnitude never causes failure (huge literals round to infinity in the
source; the model keeps the exact value). -/
def parseF64 (cs : List Char) : Option FloatVal :=
  match stripSign cs with
  | (neg, body) =>
    if toLowerStr body = ['i', 'n', 'f'] ∨
        toLowerStr body = ['i', 'n', 'f', 'i', 'n', 'i', 't', 'y'] then
      some (.inf neg)
    else if toLowerStr body = ['n', 'a', 'n'] then some .nan
    else
      match splitExp body with
      | (m, none) =>
        (parseMantissa m).map fun v => .finite neg v.1 v.2.1 v.2.2 0
      | (m, some x) =>
        match parseMantissa m, parseExp x with
        | some v, some e => some (.finite neg v.1 v.2.1 v.2.2 e)
        | _, _ => none

/-- Rust float-to-u32 cast of the exact value num / den (den positive):
truncation toward zero, saturating at the u32 range, negative values clamped
to 0. For a nonnegative value the truncation is the floor. -/
def f64ToU32 (num : Int) (den : Nat) : Nat :=
  if num ≤ 0 then 0 else min (num.toNat / den) (2 ^ 32 - 1)

/-- One parsed timing record: the original delay token, its numeric value, the
declared chunk size, and the two components of the Duration handed to sleep
(Duration::new normalizes a nanosecond part of 1e9 or more into the seconds). -/
structure TimingRecord where
  delayStr : String
  delay : FloatVal
  size : Nat
  sleepSecs : Nat
  sleepNsecs : Nat
  deriving Repr, DecidableEq

/-- The u32 cast of (delay - secs as f64) * 1.0e9, computed in exact
arithmetic for finite values; on the non-finite values the Rust cast
saturates (positive infinity) or clamps to zero (negative infinity, nan).
The non-finite cases are unreachable from parseLine: a token that parses as
an infinity or nan has a pre-dot fragment that u64::from_str rejects, so the
seconds parse fails first. -/
def nsecsOf (d : FloatVal) (secs : Nat) : Nat :=
  match d with
  | .nan => 0
  | .inf neg => if neg then 0 else 2 ^ 32 - 1
  | .finite neg i f l e =>
    let num0 : Int := (i : Int) * 10 ^ l + (f : Int)
    let num1 : Int := if neg then -num0 else num0
    if 0 ≤ e then
      f64ToU32 ((num1 * 10 ^ e.toNat - (secs : Int) * (10 ^ l : Nat)) * 10 ^ 9)
        (10 ^ l)
    else
      f64ToU32 ((num1 - (secs : Int) * (10 ^ (l + e.natAbs) : Nat)) * 10 ^ 9)
        (10 ^ (l + e.natAbs))

/-- Lines 100-104 of main.rs: split the delay token on dots, parse the first
fragment as u64, and turn the remainder delay - secs of the f64 value into
nanoseconds via multiplication by 1.0e9 and a u32 cast; then build the
Duration. -/
def decomposeDelay (cs : List Char) (d : FloatVal) :
    Except RunError (Nat × Nat) :=
  match parseU64 ((split1 '.' cs).headD []) with
  | none => .error .secsParse
  | some secs =>
    let nsecs := nsecsOf d secs
    .ok (secs + nsecs / 10 ^ 9, nsecs % 10 ^ 9)

/-- Lines 93-104 of main.rs: split the line on spaces, parse the delay from
token 0 (exiting on failure), index token 1 (panicking when absent), parse the
size (exiting on failure), then decompose the delay for the sleep. The convert
pushes of lines 97-98 happen between the size parse and the decomposition in
the source; since a decomposition failure terminates the process before the
convert list is ever used, folding the decomposition into parsing here leaves
every observable behavior unchanged. -/
def parseLine (l : String) : Except RunError TimingRecord :=
  match split1 ' ' l.data with
  | [] => .error .delayParse  -- unreachable: split1 never returns an empty list
  | p0 :: rest =>
    match parseF64 p0 with
    | none => .error .delayParse
    | some q =>
      match rest with
      | [] => .error .sizeIndex
      | p1 :: _ =>
        match parseNat p1 with
        | none => .error .sizeParse
        | some n =>
          match decomposeDelay p0 q with
          | .error e => .error e
          | .ok sns =>
            .ok { delayStr := ⟨p0⟩, delay := q, size := n,
                  sleepSecs := sns.1, sleepNsecs := sns.2 }

def lineOk (l : String) : Bool :=
  match parseLine l with
  | .ok _ => true
  | .error _ => false

def lineSize (l : String) : Nat :=
  match parseLine l with
  | .ok r => r.size
  | .error _ => 0

def sizesSum (ls : List String) : Nat :=
  (ls.map lineSize).sum

/-- One transition of the UTF-8 validation automaton. The state is the number
of continuation bytes still expected together with the admissible range of the
next byte when a continuation is expected. From the base state a lead byte
selects the sequence length and the (shortest-form and surrogate-excluding)
range of its first continuation byte; bytes 0x80-0xC1 and 0xF5-0xFF are never
valid lead bytes. -/
def utf8Step (st : Nat × Nat × Nat) (b : Nat) : Option (Nat × Nat × Nat) :=
  match st with
  | (0, _, _) =>
    if b ≤ 0x7F then some (0, 0, 0)
    else if 0xC2 ≤ b ∧ b ≤ 0xDF then some (1, 0x80, 0xBF)
    else if b = 0xE0 then some (2, 0xA0, 0xBF)
    else if b = 0xED then some (2, 0x80, 0x9F)
    else if 0xE1 ≤ b ∧ b ≤ 0xEF then some (2, 0x80, 0xBF)
    else if b = 0xF0 then some (3, 0x90, 0xBF)
    else if b = 0xF4 then some (3, 0x80, 0x8F)
    else if 0xF1 ≤ b ∧ b ≤ 0xF3 then some (3, 0x80, 0xBF)
    else none
  | (need + 1, lo, hi) =>
    if lo ≤ b ∧ b ≤ hi then some (need, 0x80, 0xBF) else none

/-- Run of the validation automaton over a byte list. -/
def utf8Run : Nat × Nat × Nat → List Nat → Option (Nat × Nat × Nat)
  | st, [] => some st
  | st, b :: r =>
    match utf8Step st b with
    | some st2 => utf8Run st2 r
    | none => none

/-- Validity of a byte sequence as UTF-8, as checked by str::from_utf8:
shortest-form encodings only, surrogates and values above U+10FFFF rejected,
and no incomplete trailing sequence. -/
def utf8Valid (bs : List Nat) : Bool :=
  match utf8Run (0, 0, 0) bs with
  | some (0, _, _) => true
  | _ => false

/-- Observable side effects of one loop iteration, in execution order. -/
inductive Event where
  | sleep (secs nsecs : Nat)        -- thread::sleep(Duration::new(secs, nsecs))
  | emit (bytes : List Nat)         -- print! of the buffered chunk
  | flush                           -- stdout flush
  | capture (frame : Nat) (path : String)  -- xwd -out path, at frame index
  | readChunk (n : Nat)             -- read_exact of n bytes
  deriving Repr, DecidableEq

/-- One captured frame: the frame index at capture time, the delay token of
the record being processed when the capture fired (the token that immediately
precedes the image path in the convert list), and the image path. -/
structure FrameRec where
  idx : Nat
  delayTag : String
  path : String
  deriving Repr, DecidableEq

/-- The mutable state of the replay loop: frame counter, pending byte buffer,
remaining typescript bytes, the convert argument accumulator, the captured
frames in order, and the per-iteration event trace. -/
structure ReplayState where
  frame : Nat
  buffer : List Nat
  script : List Nat
  convert : List String
  frames : List FrameRec
  trace : List (List Event)
  deriving Repr, DecidableEq

def imgPath (frame : Nat) : String :=
  "output/img-" ++ toString frame ++ ".xwd"

/-- Convert tokens contributed by one iteration: always "-delay" and the
original delay token, then the image path when the capture branch runs. -/
def capConvert (st : ReplayState) (r : TimingRecord) : List String :=
  st.convert ++ ["-delay", r.delayStr] ++
    (if 0 < st.buffer.length then [imgPath st.frame] else [])

/-- Frames after one iteration: one new frame exactly when the capture branch
runs. -/
def capFrames (st : ReplayState) (r : TimingRecord) : List FrameRec :=
  st.frames ++
    (if 0 < st.buffer.length then
      [⟨st.frame, r.delayStr, imgPath st.frame⟩] else [])

/-- Events of one iteration up to and excluding the read: the sleep always
comes first (line 105 precedes lines 109-119), then, when the buffer is
nonempty, the write, the flush and the capture. -/
def capEvents (st : ReplayState) (r : TimingRecord) : List Event :=
  Event.sleep r.sleepSecs r.sleepNsecs ::
    (if 0 < st.buffer.length then
      [Event.emit st.buffer, Event.flush,
       Event.capture st.frame (imgPath st.frame)]
     else [])

/-- Successor state of a fully successful iteration. -/
def mkNext (st : ReplayState) (r : TimingRecord) : ReplayState :=
  { frame := st.frame + 1
    buffer := st.script.take r.size
    script := st.script.drop r.size
    convert := capConvert st r
    frames := capFrames st r
    trace := st.trace ++ [capEvents st r ++ [Event.readChunk r.size]] }

/-- State at the moment read_exact fails: the capture branch (when taken) has
already run, the buffer contents after the failed read are unspecified and the
process exits, so the buffer is left untouched here. -/
def truncState (st : ReplayState) (r : TimingRecord) : ReplayState :=
  { st with convert := capConvert st r
            frames := capFrames st r
            trace := st.trace ++ [capEvents st r] }

/-- One iteration of the loop of lines 89-128. Errors carry the state at the
moment the process exits, so that what was observably done before a fatal
error remains statable. -/
def stepRecord (window : Option String) (st : ReplayState) (l : String) :
    Except (RunError × ReplayState) ReplayState :=
  match parseLine l with
  | .error e => .error (e, st)
  | .ok r =>
    if 0 < st.buffer.length then
      if utf8Valid st.buffer then
        match window with
        | some _ =>
          if r.size ≤ st.script.length then .ok (mkNext st r)
          else .error (.truncatedScript, truncState st r)
        | none =>
          .error (.windowUnset,
            { st with
                convert := st.convert ++ ["-delay", r.delayStr]
                trace := st.trace ++
                  [[Event.sleep r.sleepSecs r.sleepNsecs,
                    Event.emit st.buffer, Event.flush]] })
      else
        .error (.undecodable,
          { st with
              convert := st.convert ++ ["-delay", r.delayStr]
              trace := st.trace ++
                [[Event.sleep r.sleepSecs r.sleepNsecs]] })
    else
      if r.size ≤ st.script.length then .ok (mkNext st r)
      else .error (.truncatedScript, truncState st r)

/-- The whole replay loop over the timing lines. -/
def runLoop (window : Option String) :
    List String → ReplayState → Except (RunError × ReplayState) ReplayState
  | [], st => .ok st
  | l :: ls, st =>
    match stepRecord window st l with
    | .ok st1 => runLoop window ls st1
    | .error e => .error e

/-- Initial state of lines 84-87: frame counter 1, empty buffer, the convert
accumulator seeded with the program name. -/
def initState (script : List Nat) : ReplayState :=
  { frame := 1, buffer := [], script := script,
    convert := ["convert"], frames := [], trace := [] }

/-- Lines 130-132: the final encoder argument list. -/
def finalConvert (st : ReplayState) : List String :=
  st.convert ++ ["-layers", "Optimize", "output/output.gif"]

/-- Lines 79-80: read_line consumes the typescript through the first newline
(or the whole stream when none exists) and requires the consumed bytes to be
valid UTF-8. -/
def dropHeader (script : List Nat) : Except RunError (List Nat) :=
  let hdr := script.takeWhile (fun b => b ≠ 10)
  let rest := script.dropWhile (fun b => b ≠ 10)
  if utf8Valid (hdr ++ rest.take 1) then .ok (rest.drop 1)
  else .error .headerRead

/-- The replay from the raw typescript bytes: discard the header line, then
run the loop. -/
def runReplay (window : Option String) (timingLines : List String)
    (script : List Nat) : Except (RunError × ReplayState) ReplayState :=
  match dropHeader script with
  | .error e => .error (e, initState [])
  | .ok body => runLoop window timingLines (initState body)

/- Observations on a finished or aborted run, used to state concrete-input
theorems without binders. -/

def framesLen : Except (RunError × ReplayState) ReplayState → Option Nat
  | .ok st => some st.frames.length
  | .error _ => none

def framesOf : Except (RunError × ReplayState) ReplayState →
    Option (List FrameRec)
  | .ok st => some st.frames
  | .error _ => none

def traceOf : Except (RunError × ReplayState) ReplayState →
    Option (List (List Event))
  | .ok st => some st.trace
  | .error _ => none

def convertOf : Except (RunError × ReplayState) ReplayState →
    Option (List String)
  | .ok st => some (finalConvert st)
  | .error _ => none

def isSleepEv : Event → Bool
  | .sleep _ _ => true
  | _ => false

def isReadEv : Event → Bool
  | .readChunk _ => true
  | _ => false

def isCapEv : Event → Bool
  | .capture _ _ => true
  | _ => false

/-- Number of completed exact reads recorded in a trace. -/
def readCount (tr : List (List Event)) : Nat :=
  (tr.flatten.filter isReadEv).length

/-- Number of captures a run performs, given the length of the buffer entering
the first remaining iteration and the declared sizes of the remaining records:
one capture per record whose preceding chunk was nonempty. -/
def capCount : Nat → List Nat → Nat
  | _, [] => 0
  | b, n :: rest => (if 0 < b then 1 else 0) + capCount n rest

/- The end-to-end scenario of specification section 8: timing lines
"0.5 3" and "1.0 4", typescript body (after the discarded header) "abcwxyz". -/

def scenTiming : List String := ["0.5 3", "1.0 4"]

def scenScript : List Nat := [97, 98, 99, 119, 120, 121, 122]

def scenRun : Except (RunError × ReplayState) ReplayState :=
  runLoop (some "w0") scenTiming (initState scenScript)

/-- State after the first scenario iteration. -/
def scenStep1 : ReplayState :=
  { frame := 2, buffer := [97, 98, 99], script := [119, 120, 121, 122],
    convert := ["convert", "-delay", "0.5"], frames := [],
    trace := [[Event.sleep 0 500000000, Event.readChunk 3]] }

/-- Final state of the scenario run. -/
def scenFinal : ReplayState :=
  { frame := 3, buffer := [119, 120, 121, 122], script := [],
    convert := ["convert", "-delay", "0.5", "-delay", "1.0",
                "output/img-2.xwd"],
    frames := [⟨2, "1.0", "output/img-2.xwd"⟩],
    trace := [[Event.sleep 0 500000000, Event.readChunk 3],
              [Event.sleep 1 0, Event.emit [97, 98, 99], Event.flush,
               Event.capture 2 "output/img-2.xwd", Event.readChunk 4]] }

/-- Timing stream with a zero byte-count first record, for the C1 boundary. -/
def c1Lines : List String := ["1.0 0", "1.0 3"]

def c1Body : List Nat := [120, 121, 122]

/-- Timing stream whose zero byte-count record is followed by another
record. -/
def c3Lines : List String := ["1.0 0", "1.0 2"]

def c3Body : List Nat := [97, 98]

/-- State after processing the single line "1.0 0" from initState [5]. -/
def c3Step : ReplayState :=
  { frame := 2, buffer := [], script := [5],
    convert := ["convert", "-delay", "1.0"], frames := [],
    trace := [[Event.sleep 1 0, Event.readChunk 0]] }

/-- Concrete evaluation of the scenario run, reused by several witnesses. -/
lemma scenRun_eq : scenRun = .ok scenFinal := by decide

/-- Concrete evaluation of the first scenario iteration. -/
lemma scenStep1_eq :
    stepRecord (some "w0") (initState scenScript) "0.5 3" = .ok scenStep1 := by
  decide

/-! Helper lemmas about one iteration and about the loop. -/

lemma lineOk_iff {l : String} : lineOk l = true ↔ ∃ r, parseLine l = .ok r := by
  unfold lineOk
  rcases h : parseLine l with e | r <;> simp

lemma lineSize_eq {l : String} {r : TimingRecord} (h : parseLine l = .ok r) :
    lineSize l = r.size := by
  unfold lineSize
  rw [h]

lemma stepRecord_eq_ok {st : ReplayState} {l : String} {r : TimingRecord}
    (s : String) (hp : parseLine l = .ok r)
    (hu : utf8Valid st.buffer = true) (hr : r.size ≤ st.script.length) :
    stepRecord (some s) st l = .ok (mkNext st r) := by
  unfold stepRecord
  rw [hp]
  by_cases hb : 0 < st.buffer.length <;>
    simp only [hb, if_true, if_false, hu, hr, ite_true, ite_false]

lemma stepRecord_eq_trunc {st : ReplayState} {l : String} {r : TimingRecord}
    (s : String) (hp : parseLine l = .ok r)
    (hu : utf8Valid st.buffer = true) (hr : st.script.length < r.size) :
    stepRecord (some s) st l = .error (.truncatedScript, truncState st r) := by
  unfold stepRecord
  rw [hp]
  have hr' : ¬ r.size ≤ st.script.length := by omega
  by_cases hb : 0 < st.buffer.length <;>
    simp only [hb, if_true, if_false, hu, hr', ite_true, ite_false]

lemma stepRecord_ok_inv {w : Option String} {st : ReplayState} {l : String}
    {st1 : ReplayState} (h : stepRecord w st l = .ok st1) :
    ∃ r, parseLine l = .ok r ∧ r.size ≤ st.script.length ∧
      st1 = mkNext st r := by
  unfold stepRecord at h
  split at h
  · exact absurd h (by simp)
  next r hp =>
    refine ⟨r, hp, ?_⟩
    split at h
    · split at h
      · split at h
        · split at h
          · exact ⟨by assumption, by injection h with h; exact h.symm⟩
          · exact absurd h (by simp)
        · exact absurd h (by simp)
      · exact absurd h (by simp)
    · split at h
      · exact ⟨by assumption, by injection h with h; exact h.symm⟩
      · exact absurd h (by simp)

lemma runLoop_nil {w : Option String} {st : ReplayState} :
    runLoop w [] st = .ok st := rfl

lemma runLoop_cons_ok {w : Option String} {l : String} {ls : List String}
    {st st' : ReplayState} (h : runLoop w (l :: ls) st = .ok st') :
    ∃ st1, stepRecord w st l = .ok st1 ∧ runLoop w ls st1 = .ok st' := by
  unfold runLoop at h
  rcases hs : stepRecord w st l with e | st1 <;> rw [hs] at h
  · exact absurd h (by simp)
  · exact ⟨st1, rfl, h⟩

lemma runLoop_cons_step {w : Option String} {l : String} {ls : List String}
    {st st1 : ReplayState} (h : stepRecord w st l = .ok st1) :
    runLoop w (l :: ls) st = runLoop w ls st1 := by
  show (match stepRecord w st l with
        | .ok st1 => runLoop w ls st1
        | .error e => .error e) = runLoop w ls st1
  rw [h]

lemma utf8Step_ascii {b : Nat} (hb : b ≤ 0x7F) (lo hi : Nat) :
    utf8Step (0, lo, hi) b = some (0, 0, 0) := by
  show (if b ≤ 0x7F then some (0, 0, 0) else _) = some (0, 0, 0)
  rw [if_pos hb]

lemma utf8Valid_of_ascii {bs : List Nat} (h : ∀ b ∈ bs, b < 128) :
    utf8Valid bs = true := by
  induction bs with
  | nil => rfl
  | cons b r ih =>
    have hb : b ≤ 0x7F := by
      have := h b (by simp)
      omega
    have hrun : utf8Run (0, 0, 0) (b :: r) = utf8Run (0, 0, 0) r := by
      show (match utf8Step (0, 0, 0) b with
            | some st2 => utf8Run st2 r
            | none => none) = utf8Run (0, 0, 0) r
      rw [utf8Step_ascii hb]
    show (match utf8Run (0, 0, 0) (b :: r) with
          | some (0, _, _) => true
          | _ => false) = true
    rw [hrun]
    exact ih fun x hx => h x (by simp [hx])

/-- The frame counter advances by exactly one per processed record. -/
lemma runLoop_frame {w : Option String} {ls : List String} :
    ∀ {st st' : ReplayState}, runLoop w ls st = .ok st' →
      st'.frame = st.frame + ls.length := by
  induction ls with
  | nil =>
    intro st st' h
    rw [runLoop_nil] at h
    injection h with h
    rw [← h]
    simp
  | cons l ls ih =>
    intro st st' h
    obtain ⟨st1, hs, hrest⟩ := runLoop_cons_ok h
    obtain ⟨r, hp, hr, hst1⟩ := stepRecord_ok_inv hs
    have hrec := ih hrest
    subst hst1
    simp only [mkNext] at hrec
    simp only [List.length_cons]
    omega

/-- The frame list only ever grows. -/
lemma runLoop_frames_mono {w : Option String} {ls : List String} :
    ∀ {st st' : ReplayState}, runLoop w ls st = .ok st' →
      ∃ t, st'.frames = st.frames ++ t := by
  induction ls with
  | nil =>
    intro st st' h
    rw [runLoop_nil] at h
    injection h with h
    exact ⟨[], by rw [← h]; simp⟩
  | cons l ls ih =>
    intro st st' h
    obtain ⟨st1, hs, hrest⟩ := runLoop_cons_ok h
    obtain ⟨r, hp, hr, hst1⟩ := stepRecord_ok_inv hs
    obtain ⟨t, ht⟩ := ih hrest
    subst hst1
    refine ⟨(if 0 < st.buffer.length then
      [⟨st.frame, r.delayStr, imgPath st.frame⟩] else []) ++ t, ?_⟩
    rw [ht]
    simp [mkNext, capFrames]

/-- Shape of the trace of a successful run: one event list per record, and
every capture in the event list of iteration j names the frame index the
counter held there, a capture in the first remaining iteration occurring only
when a chunk was already buffered. -/
lemma runLoop_trace_spec {w : Option String} {ls : List String} :
    ∀ {st st' : ReplayState}, runLoop w ls st = .ok st' →
      ∃ tt, st'.trace = st.trace ++ tt ∧ tt.length = ls.length ∧
        ∀ j evs, tt[j]? = some evs → ∀ i p, Event.capture i p ∈ evs →
          i = st.frame + j ∧ (j = 0 → 0 < st.buffer.length) := by
  induction ls with
  | nil =>
    intro st st' h
    rw [runLoop_nil] at h
    injection h with h
    refine ⟨[], by rw [← h]; simp, rfl, ?_⟩
    intro j evs hj
    simp at hj
  | cons l ls ih =>
    intro st st' h
    obtain ⟨st1, hs, hrest⟩ := runLoop_cons_ok h
    obtain ⟨r, hp, hr, hst1⟩ := stepRecord_ok_inv hs
    obtain ⟨tt, htt, hlen, hcap⟩ := ih hrest
    subst hst1
    refine ⟨(capEvents st r ++ [Event.readChunk r.size]) :: tt, ?_,
      by simp [hlen], ?_⟩
    · rw [htt]
      simp [mkNext]
    · intro j evs hj i p hmem
      cases j with
      | zero =>
        simp only [List.getElem?_cons_zero, Option.some.injEq] at hj
        subst hj
        by_cases hb : 0 < st.buffer.length <;> simp [capEvents, hb] at hmem
        obtain ⟨hi, -⟩ := hmem
        exact ⟨by omega, fun _ => hb⟩
      | succ j' =>
        simp only [List.getElem?_cons_succ] at hj
        obtain ⟨h1, -⟩ := hcap j' evs hj i p hmem
        simp only [mkNext] at h1
        exact ⟨by omega, fun hj0 => absurd hj0 (Nat.succ_ne_zero j')⟩

/-- Every frame a run adds is named by the frame index it was captured at,
that index is at least the starting counter value, and it equals the starting
value only when a chunk was already buffered when the run began. -/
lemma runLoop_frames_spec {w : Option String} {ls : List String} :
    ∀ {st st' : ReplayState}, runLoop w ls st = .ok st' →
      ∀ fr ∈ st'.frames, fr ∈ st.frames ∨
        (fr.path = imgPath fr.idx ∧ st.frame ≤ fr.idx ∧
          (fr.idx = st.frame → 0 < st.buffer.length)) := by
  induction ls with
  | nil =>
    intro st st' h fr hfr
    rw [runLoop_nil] at h
    injection h with h
    exact Or.inl (h ▸ hfr)
  | cons l ls ih =>
    intro st st' h fr hfr
    obtain ⟨st1, hs, hrest⟩ := runLoop_cons_ok h
    obtain ⟨r, hp, hr, hst1⟩ := stepRecord_ok_inv hs
    rcases ih hrest fr hfr with hin | hP
    · rw [hst1] at hin
      simp only [mkNext, capFrames] at hin
      rcases List.mem_append.mp hin with hin | hin
      · exact Or.inl hin
      · by_cases hb : 0 < st.buffer.length <;> simp [hb] at hin
        subst hin
        exact Or.inr ⟨rfl, le_refl _, fun _ => hb⟩
    · rw [hst1] at hP
      simp only [mkNext] at hP
      exact Or.inr ⟨hP.1, by omega, by omega⟩

/-- The convert accumulator of a successful run decomposes into one block per
record: the "-delay" flag and the delay token, followed by an image path
exactly when that iteration captured; the number of three-token blocks is the
number of frames added. -/
lemma runLoop_convert_spec {w : Option String} {ls : List String} :
    ∀ {st st' : ReplayState}, runLoop w ls st = .ok st' →
      ∃ blocks : List (List String),
        st'.convert = st.convert ++ blocks.flatten ∧
        blocks.length = ls.length ∧
        (∀ b ∈ blocks,
          (∃ d, b = ["-delay", d]) ∨ (∃ d i, b = ["-delay", d, imgPath i])) ∧
        st'.frames.length =
          st.frames.length + blocks.countP (fun b => b.length == 3) := by
  induction ls with
  | nil =>
    intro st st' h
    rw [runLoop_nil] at h
    injection h with h
    exact ⟨[], by rw [← h]; simp, rfl, by simp, by rw [← h]; simp⟩
  | cons l ls ih =>
    intro st st' h
    obtain ⟨st1, hs, hrest⟩ := runLoop_cons_ok h
    obtain ⟨r, hp, hr, hst1⟩ := stepRecord_ok_inv hs
    obtain ⟨blocks, hconv, hlen, hshape, hcount⟩ := ih hrest
    subst hst1
    refine ⟨(["-delay", r.delayStr] ++
      (if 0 < st.buffer.length then [imgPath st.frame] else [])) :: blocks,
      ?_, by simp [hlen], ?_, ?_⟩
    · rw [hconv]
      by_cases hb : 0 < st.buffer.length <;> simp [mkNext, capConvert, hb]
    · intro b hb
      rcases List.mem_cons.mp hb with hbeq | hbin
      · by_cases hbuf : 0 < st.buffer.length <;> simp [hbuf] at hbeq
        · exact Or.inr ⟨r.delayStr, st.frame, hbeq⟩
        · exact Or.inl ⟨r.delayStr, hbeq⟩
      · exact hshape b hbin
    · rw [hcount]
      simp only [mkNext, capFrames] at *
      by_cases hb : 0 < st.buffer.length
      · simp [hb, List.countP_cons]
        omega
      · simp [hb, List.countP_cons]

lemma capCount_cons (b n : Nat) (rest : List Nat) :
    capCount b (n :: rest) = (if 0 < b then 1 else 0) + capCount n rest := rfl

lemma capCount_all_pos :
    ∀ (sizes : List Nat) (b : Nat), (∀ x ∈ (b :: sizes).dropLast, 0 < x) →
      capCount b sizes = sizes.length := by
  intro sizes
  induction sizes with
  | nil => intro b _; rfl
  | cons n rest ih =>
    intro b h
    have hb : 0 < b := h b (by simp)
    rw [capCount_cons, if_pos hb, ih n fun x hx => h x (by simp [hx])]
    simp [Nat.add_comm]

lemma capCount_from_zero :
    ∀ sizes : List Nat, (∀ x ∈ sizes.dropLast, 0 < x) →
      capCount 0 sizes = sizes.length - 1 := by
  intro sizes h
  cases sizes with
  | nil => rfl
  | cons n rest =>
    rw [capCount_cons, if_neg (by omega)]
    cases rest with
    | nil => rfl
    | cons m rest2 =>
      rw [capCount_all_pos (m :: rest2) n h]
      simp

lemma sizesSum_cons (l : String) (ls : List String) :
    sizesSum (l :: ls) = lineSize l + sizesSum ls := by
  simp [sizesSum]

lemma capEvents_no_reads (st : ReplayState) (r : TimingRecord) :
    (capEvents st r).filter isReadEv = [] := by
  by_cases hb : 0 < st.buffer.length <;> simp [capEvents, hb, isReadEv]

lemma readCount_append (tr : List (List Event)) (evs : List Event) :
    readCount (tr ++ [evs]) = readCount tr + (evs.filter isReadEv).length := by
  simp [readCount]

lemma mkNext_frames_length (st : ReplayState) (r : TimingRecord) :
    (mkNext st r).frames.length =
      st.frames.length + (if 0 < st.buffer.length then 1 else 0) := by
  by_cases hb : 0 < st.buffer.length <;> simp [mkNext, capFrames, hb]

lemma mkNext_readCount (st : ReplayState) (r : TimingRecord) :
    readCount (mkNext st r).trace = readCount st.trace + 1 := by
  show readCount (st.trace ++ [capEvents st r ++ [Event.readChunk r.size]]) = _
  rw [readCount_append]
  simp [List.filter_append, capEvents_no_reads, isReadEv]

/-- Constructive run of the loop: with every line parseable, enough ASCII
script bytes and a resolvable window, the loop succeeds and the number of
frames it adds is capCount of the entering buffer length and the declared
sizes. -/
lemma runLoop_count (s : String) :
    ∀ (ls : List String) (st : ReplayState),
      (∀ l ∈ ls, lineOk l = true) →
      sizesSum ls ≤ st.script.length →
      (∀ b ∈ st.script, b < 128) →
      (∀ b ∈ st.buffer, b < 128) →
      ∃ st', runLoop (some s) ls st = .ok st' ∧
        st'.frames.length =
          st.frames.length + capCount st.buffer.length (ls.map lineSize) := by
  intro ls
  induction ls with
  | nil =>
    intro st _ _ _ _
    exact ⟨st, runLoop_nil, by simp [capCount]⟩
  | cons l ls ih =>
    intro st hok hlen hS hB
    obtain ⟨r, hp⟩ := lineOk_iff.mp (hok l (by simp))
    have hsz : lineSize l = r.size := lineSize_eq hp
    have hlenc := sizesSum_cons l ls
    have hr : r.size ≤ st.script.length := by omega
    have hstep := stepRecord_eq_ok s hp (utf8Valid_of_ascii hB) hr
    have hS1 : ∀ b ∈ (mkNext st r).script, b < 128 := by
      intro b hb
      exact hS b (List.drop_subset _ _ hb)
    have hB1 : ∀ b ∈ (mkNext st r).buffer, b < 128 := by
      intro b hb
      exact hS b (List.take_subset _ _ hb)
    have hlen1 : sizesSum ls ≤ (mkNext st r).script.length := by
      simp only [mkNext, List.length_drop]
      omega
    obtain ⟨st', hrun, hcount⟩ :=
      ih (mkNext st r) (fun x hx => hok x (by simp [hx])) hlen1 hS1 hB1
    refine ⟨st', by rw [runLoop_cons_step hstep]; exact hrun, ?_⟩
    have hbuf1 : (mkNext st r).buffer.length = r.size := by
      simp only [mkNext, List.length_take]
      omega
    rw [hcount, mkNext_frames_length, hbuf1, List.map_cons, hsz, capCount_cons]
    omega

/-- A run whose typescript is shorter than the declared total, with every line
parseable, ASCII bytes and a resolvable window, aborts with the truncation
error, and at that point no more captures have happened than exact reads
completed: no capture was ever attempted for the under-filled chunk. -/
lemma runLoop_trunc (s : String) :
    ∀ (ls : List String) (st : ReplayState),
      (∀ l ∈ ls, lineOk l = true) →
      (∀ b ∈ st.script, b < 128) →
      (∀ b ∈ st.buffer, b < 128) →
      st.frames.length + (if 0 < st.buffer.length then 1 else 0) ≤
        readCount st.trace →
      st.script.length < sizesSum ls →
      ∃ st', runLoop (some s) ls st = .error (.truncatedScript, st') ∧
        st'.frames.length ≤ readCount st'.trace := by
  intro ls
  induction ls with
  | nil =>
    intro st _ _ _ _ hshort
    simp [sizesSum] at hshort
  | cons l ls ih =>
    intro st hok hS hB hinv hshort
    obtain ⟨r, hp⟩ := lineOk_iff.mp (hok l (by simp))
    have hsz : lineSize l = r.size := lineSize_eq hp
    have hlenc := sizesSum_cons l ls
    have hu := utf8Valid_of_ascii hB
    by_cases hr : r.size ≤ st.script.length
    · have hstep := stepRecord_eq_ok s hp hu hr
      have hS1 : ∀ b ∈ (mkNext st r).script, b < 128 := by
        intro b hb
        exact hS b (List.drop_subset _ _ hb)
      have hB1 : ∀ b ∈ (mkNext st r).buffer, b < 128 := by
        intro b hb
        exact hS b (List.take_subset _ _ hb)
      have hinv1 : (mkNext st r).frames.length +
          (if 0 < (mkNext st r).buffer.length then 1 else 0) ≤
            readCount (mkNext st r).trace := by
        rw [mkNext_frames_length, mkNext_readCount]
        by_cases hb1 : 0 < (mkNext st r).buffer.length <;>
          simp only [hb1, if_true, if_false] <;> omega
      have hshort1 : (mkNext st r).script.length < sizesSum ls := by
        simp only [mkNext, List.length_drop]
        omega
      obtain ⟨st', herr, hle⟩ :=
        ih (mkNext st r) (fun x hx => hok x (by simp [hx])) hS1 hB1 hinv1 hshort1
      exact ⟨st', by rw [runLoop_cons_step hstep]; exact herr, hle⟩
    · have hstep := stepRecord_eq_trunc s hp hu (by omega)
      refine ⟨truncState st r, ?_, ?_⟩
      · show (match stepRecord (some s) st l with
              | .ok st1 => runLoop (some s) ls st1
              | .error e => .error e) = _
        rw [hstep]
      · have hfr : (truncState st r).frames.length =
            st.frames.length + (if 0 < st.buffer.length then 1 else 0) := by
          by_cases hb : 0 < st.buffer.length <;>
            simp [truncState, capFrames, hb]
        have hrd : readCount (truncState st r).trace = readCount st.trace := by
          show readCount (st.trace ++ [capEvents st r]) = _
          rw [readCount_append, capEvents_no_reads]
          simp
        omega

lemma dropLast_map_lineSize :
    ∀ ls : List String, (ls.map lineSize).dropLast = ls.dropLast.map lineSize := by
  intro ls
  induction ls with
  | nil => rfl
  | cons a t ih =>
    cases t with
    | nil => rfl
    | cons b t2 =>
      rw [List.map_cons, List.map_cons, List.dropLast_cons₂, ← List.map_cons,
        ih, List.dropLast_cons₂, List.map_cons]

/-! The claims. -/

/-- C1 counterexample: the claim says every well-formed N-record stream
produces exactly N-1 frames, but the two-record stream whose first record
declares zero bytes runs to completion with 0 frames, not 1. -/
theorem C1_counterexample :
    framesLen (runLoop (some "w0") c1Lines (initState c1Body)) = some 0 ∧
    some 0 ≠ some (c1Lines.length - 1) := by decide

/-- C1 (amended): for every timing stream whose lines all parse, whose every
record except possibly the last declares a positive byte count, with at least
the declared number of ASCII typescript bytes and a resolved window, the
replay succeeds and produces exactly N-1 frames. Without the positivity
proviso the count can be lower, because a record processed while the buffer
is empty (the first record, or any record after a zero-byte chunk) triggers
no capture. -/
theorem C1_theorem (s : String) (lines : List String) (body : List Nat)
    (hok : ∀ l ∈ lines, lineOk l = true)
    (hpos : ∀ l ∈ lines.dropLast, 0 < lineSize l)
    (hlen : sizesSum lines ≤ body.length)
    (hascii : ∀ b ∈ body, b < 128) :
    ∃ st', runLoop (some s) lines (initState body) = .ok st' ∧
      st'.frames.length = lines.length - 1 := by
  obtain ⟨st', hrun, hcount⟩ :=
    runLoop_count s lines (initState body) hok
      (by simpa [initState] using hlen)
      (by simpa [initState] using hascii)
      (by simp [initState])
  refine ⟨st', hrun, ?_⟩
  have hdrop : ∀ x ∈ (lines.map lineSize).dropLast, 0 < x := by
    intro x hx
    rw [dropLast_map_lineSize] at hx
    obtain ⟨l, hl, hlx⟩ := List.mem_map.mp hx
    exact hlx ▸ hpos l hl
  rw [hcount, show (initState body).buffer.length = 0 from rfl,
    capCount_from_zero (lines.map lineSize) hdrop]
  simp [initState]

/-- Witness for C1_theorem at a two-record one-byte-chunk input. -/
theorem C1_witness :
    ∃ st', runLoop (some "w0") ["1.0 1", "1.0 1"] (initState [97, 97]) =
        .ok st' ∧
      st'.frames.length = (["1.0 1", "1.0 1"] : List String).length - 1 :=
  C1_theorem "w0" ["1.0 1", "1.0 1"] [97, 97] (by decide) (by decide)
    (by decide) (by decide)

/-- C2 counterexample: in the section-8 scenario, the last event of the
second iteration is the chunk read, not the pacing sleep, so the sleep is not
the last step of the iteration. -/
theorem C2_counterexample :
    (traceOf scenRun).map
        (fun t => isSleepEv (((t.getD 1 []).getLast?).getD Event.flush)) =
      some false ∧
    (traceOf scenRun).map
        (fun t => isReadEv (((t.getD 1 []).getLast?).getD Event.flush)) =
      some true := by decide

/-- C2 (amended): in every successfully completed iteration the pacing sleep
is the FIRST recorded step; the emission, flush and capture of the previously
buffered chunk (present only on capturing iterations) come after it, and the
read of the chunk of the current record is the LAST step. -/
theorem C2_theorem (w : Option String) (st : ReplayState) (l : String)
    (st1 : ReplayState) (h : stepRecord w st l = .ok st1) :
    ∃ r mid, parseLine l = .ok r ∧
      st1.trace = st.trace ++
        [Event.sleep r.sleepSecs r.sleepNsecs ::
          (mid ++ [Event.readChunk r.size])] ∧
      ∀ e ∈ mid, e = Event.emit st.buffer ∨ e = Event.flush ∨
        e = Event.capture st.frame (imgPath st.frame) := by
  obtain ⟨r, hp, hr, hst1⟩ := stepRecord_ok_inv h
  subst hst1
  refine ⟨r, if 0 < st.buffer.length then
      [Event.emit st.buffer, Event.flush,
       Event.capture st.frame (imgPath st.frame)]
    else [], hp, ?_, ?_⟩
  · by_cases hb : 0 < st.buffer.length <;> simp [mkNext, capEvents, hb]
  · by_cases hb : 0 < st.buffer.length <;> simp [hb]

/-- Witness for C2_theorem at the first scenario iteration. -/
theorem C2_witness :
    ∃ r mid, parseLine "0.5 3" = .ok r ∧
      scenStep1.trace = (initState scenScript).trace ++
        [Event.sleep r.sleepSecs r.sleepNsecs ::
          (mid ++ [Event.readChunk r.size])] ∧
      ∀ e ∈ mid, e = Event.emit (initState scenScript).buffer ∨
        e = Event.flush ∨
        e = Event.capture (initState scenScript).frame
              (imgPath (initState scenScript).frame) :=
  C2_theorem (some "w0") (initState scenScript) "0.5 3" scenStep1 scenStep1_eq

/-- C3 counterexample: a stream in which the zero byte-count record is
followed by another record runs to completion with no frame at all and no
capture event, against the claim that the zero-byte record still produces a
frame at the next chunk boundary. -/
theorem C3_counterexample :
    framesLen (runLoop (some "w0") c3Lines (initState c3Body)) = some 0 ∧
    (traceOf (runLoop (some "w0") c3Lines (initState c3Body))).map
        (fun t => (t.flatten.filter isCapEv).length) = some 0 := by decide

/-- C3 (amended): the timing line "1.0 0" is valid, but a zero-byte chunk
produces NO frame: the iteration that follows it finds an empty buffer and
performs neither an emission nor a capture, only the sleep and its own read. -/
theorem C3_theorem (w : Option String) (st : ReplayState) (l : String)
    (st1 : ReplayState) (hb : st.buffer = [])
    (h : stepRecord w st l = .ok st1) :
    lineOk "1.0 0" = true ∧ st1.frames = st.frames ∧
      ∃ r, parseLine l = .ok r ∧
        st1.trace = st.trace ++
          [[Event.sleep r.sleepSecs r.sleepNsecs, Event.readChunk r.size]] := by
  obtain ⟨r, hp, hr, hst1⟩ := stepRecord_ok_inv h
  subst hst1
  have hb0 : ¬ 0 < st.buffer.length := by simp [hb]
  refine ⟨by decide, by simp [mkNext, capFrames, hb0], r, hp, ?_⟩
  simp [mkNext, capEvents, hb0]

/-- Witness for C3_theorem at the line "1.0 0" from a fresh state. -/
theorem C3_witness :
    lineOk "1.0 0" = true ∧ c3Step.frames = (initState [5]).frames ∧
      ∃ r, parseLine "1.0 0" = .ok r ∧
        c3Step.trace = (initState [5]).trace ++
          [[Event.sleep r.sleepSecs r.sleepNsecs, Event.readChunk r.size]] :=
  C3_theorem (some "w0") (initState [5]) "1.0 0" c3Step (by decide) (by decide)

/-- C4 counterexample: a timing line with three space-separated tokens whose
first two are numeric is ACCEPTED - the third token is silently ignored - and
a run containing it succeeds, against the claim that any line with other than
two tokens fails with a parse error. -/
theorem C4_counterexample :
    lineOk "0.5 3 x" = true ∧
    framesLen (runLoop (some "w0") ["0.5 3 x"] (initState [1, 2, 3])) =
      some 0 := by decide

/-- C4 (amended): a timing line is accepted exactly when it splits into AT
LEAST two space-separated tokens (tokens beyond the second are ignored), the
first token parses as an unsigned decimal float whose fragment before the
first dot also parses as u64, and the second token parses as an unsigned
integer; a line with fewer than two tokens aborts by an index panic rather
than the reported parse error. Whenever the line is rejected, the iteration
aborts with the parse failure before any emission, capture or read, leaving
the replay state unchanged. -/
theorem C4_theorem (l : String) :
    (lineOk l = true ↔
      (2 ≤ (split1 ' ' l.data).length ∧
        (parseF64 ((split1 ' ' l.data).headD [])).isSome = true ∧
        (parseNat ((split1 ' ' l.data).getD 1 [])).isSome = true ∧
        (parseU64
          ((split1 '.' ((split1 ' ' l.data).headD [])).headD [])).isSome =
            true)) ∧
    (lineOk l = false → ∀ w st, ∃ e, stepRecord w st l = .error (e, st)) := by
  constructor
  · unfold lineOk parseLine
    cases hsplit : split1 ' ' l.data with
    | nil => simp
    | cons p0 rest =>
      rcases hf : parseF64 p0 with _ | d
      · simp [hf]
      · cases rest with
        | nil => simp [hf]
        | cons p1 rest2 =>
          rcases hn : parseNat p1 with _ | n
          · simp [hf, hn]
          · rcases hu : parseU64 ((split1 '.' p0).headD []) with _ | secs
            · have hd : decomposeDelay p0 d = .error .secsParse := by
                unfold decomposeDelay
                rw [hu]
              simp [hf, hn, hd]
              rw [← List.headD_eq_head?_getD]
              exact hu
            · obtain ⟨sns, hd⟩ : ∃ sns, decomposeDelay p0 d = .ok sns := by
                unfold decomposeDelay
                rw [hu]
                exact ⟨_, rfl⟩
              simp [hf, hn, hd]
              rw [← List.headD_eq_head?_getD, hu]
              rfl
  · intro hfalse w st
    unfold lineOk at hfalse
    rcases hp : parseLine l with e | r
    · refine ⟨e, ?_⟩
      unfold stepRecord
      rw [hp]
    · rw [hp] at hfalse
      exact absurd hfalse (by simp)

/-- Witness for C4_theorem: the line "x 1" fails the float parse, and the
step on it aborts with the parse error, leaving the state unchanged. -/
theorem C4_witness :
    ∃ e, stepRecord none (initState []) "x 1" = .error (e, initState []) := by
  have h := C4_theorem "x 1"
  exact h.2 (by decide) none (initState [])

/-- C5 counterexample: in the section-8 scenario the single captured image is
output/img-2.xwd, not output/img-1.xwd as the claim asserts. -/
theorem C5_counterexample :
    (framesOf scenRun).map (fun fs => fs.map FrameRec.path) =
      some ["output/img-2.xwd"] ∧
    (framesOf scenRun).map (fun fs => fs.map FrameRec.path) ≠
      some ["output/img-1.xwd"] := by decide

/-- C5 (amended): the frame index starts at 1 and each captured image is
named by the index current at capture time, but the index also advances on
the first, non-capturing iteration, so in every successful replay with at
least two records whose first record declares a positive byte count, the
FIRST captured image is output/img-2.xwd, at frame index 2; no image is ever
named with index 1. -/
theorem C5_theorem (s l1 l2 : String) (rest : List String) (body : List Nat)
    (st' : ReplayState) (hpos : 0 < lineSize l1)
    (hrun : runLoop (some s) (l1 :: l2 :: rest) (initState body) = .ok st') :
    ∃ d, st'.frames.head? = some ⟨2, d, imgPath 2⟩ ∧
      imgPath 2 = "output/img-2.xwd" := by
  obtain ⟨st1, hs1, hrun1⟩ := runLoop_cons_ok hrun
  obtain ⟨r1, hp1, hr1, hst1⟩ := stepRecord_ok_inv hs1
  obtain ⟨st2, hs2, hrun2⟩ := runLoop_cons_ok hrun1
  obtain ⟨r2, hp2, hr2, hst2⟩ := stepRecord_ok_inv hs2
  obtain ⟨t, ht⟩ := runLoop_frames_mono hrun2
  rw [lineSize_eq hp1] at hpos
  have hbuf1 : st1.buffer.length = r1.size := by
    rw [hst1]
    simp only [mkNext, List.length_take, initState] at hr1 ⊢
    omega
  have hpos1 : 0 < st1.buffer.length := by omega
  have hframe1 : st1.frame = 2 := by
    rw [hst1]
    simp [mkNext, initState]
  have hframes1 : st1.frames = [] := by
    rw [hst1]
    simp [mkNext, capFrames, initState]
  have hframes2 : st2.frames = [⟨2, r2.delayStr, imgPath 2⟩] := by
    rw [hst2]
    simp [mkNext, capFrames, hpos1, hframes1, hframe1]
  refine ⟨r2.delayStr, ?_, rfl⟩
  rw [ht, hframes2]
  simp

/-- Witness for C5_theorem at the section-8 scenario. -/
theorem C5_witness :
    ∃ d, scenFinal.frames.head? = some ⟨2, d, imgPath 2⟩ ∧
      imgPath 2 = "output/img-2.xwd" :=
  C5_theorem "w0" "0.5 3" "1.0 4" [] scenScript scenFinal (by decide)
    scenRun_eq

/-- C6 counterexample: the single scenario frame is tagged with delay "1.0",
not "0.5" as the claim asserts. -/
theorem C6_counterexample :
    (framesOf scenRun).map (fun fs => fs.map FrameRec.delayTag) =
      some ["1.0"] ∧
    ("1.0" : String) ≠ "0.5" := by decide

/-- C6 (amended): the scenario run ends with exactly one frame in the list,
and that frame is tagged with the delay string "1.0" - the delay of the
SECOND record, the one being processed when the capture fired, which is the
token immediately preceding the image path in the encoder argument list - not
with the "0.5" of the first record. -/
theorem C6_theorem :
    framesOf scenRun = some [⟨2, "1.0", "output/img-2.xwd"⟩] ∧
    convertOf scenRun =
      some ["convert", "-delay", "0.5", "-delay", "1.0", "output/img-2.xwd",
            "-layers", "Optimize", "output/output.gif"] := by decide

/-- C7 counterexample: the final scenario encoder argument list has two
delay entries but only one captured frame, and the delay entry "-delay"
"0.5" is followed by another "-delay", not by an image path. -/
theorem C7_counterexample :
    (convertOf scenRun).map (fun c => c.countP (fun t => t == "-delay")) =
      some 2 ∧
    framesLen scenRun = some 1 ∧ (2 : Nat) ≠ 1 ∧
    (convertOf scenRun).map (fun c => c.getD 3 "") = some "-delay" := by
  decide

/-- C7 (amended): the final encoder argument list is the program name,
followed by one block per timing record in stream order - the delay flag with
the delay token of that record, plus an image path exactly when that iteration
captured - followed by the optimization directive and the output artifact
path. The image path of each captured frame immediately follows a delay entry, and
there are as many image paths as frames, but there is one delay entry per
RECORD, not per frame: the blocks of non-capturing records carry no image
path. -/
theorem C7_theorem (s : String) (lines : List String) (body : List Nat)
    (st' : ReplayState)
    (hrun : runLoop (some s) lines (initState body) = .ok st') :
    ∃ blocks : List (List String),
      finalConvert st' = "convert" ::
        (blocks.flatten ++ ["-layers", "Optimize", "output/output.gif"]) ∧
      blocks.length = lines.length ∧
      (∀ b ∈ blocks,
        (∃ d, b = ["-delay", d]) ∨ (∃ d i, b = ["-delay", d, imgPath i])) ∧
      blocks.countP (fun b => b.length == 3) = st'.frames.length := by
  obtain ⟨blocks, hconv, hlen, hshape, hcount⟩ := runLoop_convert_spec hrun
  refine ⟨blocks, ?_, hlen, hshape, ?_⟩
  · unfold finalConvert
    rw [hconv]
    simp [initState]
  · rw [hcount]
    simp [initState]

/-- Witness for C7_theorem at the section-8 scenario. -/
theorem C7_witness :
    ∃ blocks : List (List String),
      finalConvert scenFinal = "convert" ::
        (blocks.flatten ++ ["-layers", "Optimize", "output/output.gif"]) ∧
      blocks.length = scenTiming.length ∧
      (∀ b ∈ blocks,
        (∃ d, b = ["-delay", d]) ∨ (∃ d i, b = ["-delay", d, imgPath i])) ∧
      blocks.countP (fun b => b.length == 3) = scenFinal.frames.length :=
  C7_theorem "w0" scenTiming scenScript scenFinal scenRun_eq

/-- C8: when the typescript (all lines parseable, bytes ASCII, window
resolved) holds fewer bytes than the timing records declare, the run aborts
with the truncation error of the exact read, and no capture was attempted for
the under-filled chunk: at the abort the number of captures performed does
not exceed the number of completed exact reads, so every capture corresponds
to a fully read earlier chunk. -/
theorem C8_theorem (s : String) (lines : List String) (body : List Nat)
    (hok : ∀ l ∈ lines, lineOk l = true)
    (hascii : ∀ b ∈ body, b < 128)
    (hshort : body.length < sizesSum lines) :
    ∃ st', runLoop (some s) lines (initState body) =
        .error (.truncatedScript, st') ∧
      st'.frames.length ≤ readCount st'.trace := by
  apply runLoop_trunc s lines (initState body) hok
  · simpa [initState] using hascii
  · simp [initState]
  · simp [initState, readCount]
  · simpa [initState] using hshort

/-- Witness for C8_theorem: one record declaring 5 bytes against a 2-byte
typescript. -/
theorem C8_witness :
    ∃ st', runLoop (some "w0") ["1.0 5"] (initState [97, 98]) =
        .error (.truncatedScript, st') ∧
      st'.frames.length ≤ readCount st'.trace :=
  C8_theorem "w0" ["1.0 5"] [97, 98] (by decide) (by decide) (by decide)

/-- C9: for the delay token "2.5" the pacing duration decomposes to exactly
2 whole seconds and 500000000 nanoseconds; the parsed value of "2.5" is the
rational 5/2, for which the f64 computation of the source is exact. -/
theorem C9_theorem :
    (parseLine "2.5 0").map (fun r => (r.sleepSecs, r.sleepNsecs)) =
      .ok (2, 500000000) ∧
    (parseF64 "2.5".data).map FloatVal.toRat = some (5 / 2 : ℚ) := by
  constructor
  · decide
  · show (some (FloatVal.finite false 2 5 1 0)).map FloatVal.toRat =
      some (5 / 2 : ℚ)
    simp [FloatVal.toRat]
    norm_num

/-- C10: in every successful replay from the initial state, the frame counter
ends at N+1 after the N records (one increment per record, capturing or not),
the capture fired during iteration j (0-based) names frame index j+1 - the
1-based position of the record being processed - every such index is at least
2, and no recorded frame is numbered 1, so an image named with index 1 is
never produced. -/
theorem C10_theorem (s : String) (lines : List String) (body : List Nat)
    (st' : ReplayState)
    (hrun : runLoop (some s) lines (initState body) = .ok st') :
    st'.frame = lines.length + 1 ∧
    st'.trace.length = lines.length ∧
    (∀ j evs, st'.trace[j]? = some evs → ∀ i p, Event.capture i p ∈ evs →
      i = j + 1 ∧ 2 ≤ i) ∧
    (∀ fr ∈ st'.frames, fr.path = imgPath fr.idx ∧ 2 ≤ fr.idx) := by
  have hframe := runLoop_frame hrun
  obtain ⟨tt, htt, hlen, hcap⟩ := runLoop_trace_spec hrun
  have hframes := runLoop_frames_spec hrun
  have htt' : st'.trace = tt := by
    rw [htt]
    simp [initState]
  refine ⟨by simp [initState] at hframe; omega, by rw [htt', hlen], ?_, ?_⟩
  · intro j evs hj i p hmem
    rw [htt'] at hj
    obtain ⟨hi, hz⟩ := hcap j evs hj i p hmem
    simp only [initState] at hi hz
    have hj0 : j ≠ 0 := by
      intro h0
      have := hz h0
      simp at this
    exact ⟨by omega, by omega⟩
  · intro fr hfr
    rcases hframes fr hfr with hin | hP
    · simp [initState] at hin
    · obtain ⟨hpath, hge, heq⟩ := hP
      simp only [initState] at hge heq
      have h1 : fr.idx ≠ 1 := by
        intro h1
        have := heq h1
        simp at this
      exact ⟨hpath, by omega⟩

/-- Witness for C10_theorem at the section-8 scenario. -/
theorem C10_witness : scenFinal.frame = scenTiming.length + 1 := by
  have h := C10_theorem "w0" scenTiming scenScript scenFinal scenRun_eq
  exact h.1

end Rusttygif
